import Mathlib

/-!
Verification of the connection-establishment / out-of-band-invitation /
mediator-keylist core of the DIDComm agent framework, together with the
HTTP outbound transport and two storage-migration helpers.

Pure fragments of the source (the HTTP outbound transport) are embedded
directly; components whose implementation is not part of the sampled
sources are modelled from the specification text, as noted on each
definition.
-/

namespace Aries

/-! ### HTTP outbound transport (`HttpOutboundTransport.sendMessage`) -/

/-- An outbound package handed to the HTTP outbound transport
(`OutboundPackage` in the source): the encrypted payload, the optional
delivery endpoint and whether return routing (a response) was requested. -/
structure OutboundPackage where
  payload : String
  endpoint : Option String
  responseRequested : Bool
  deriving DecidableEq

/-- Outcome of the `fetch` collaborator call inside `sendMessage`: either a
successful HTTP response with its body text, or a thrown error carrying its
`name` and `message` fields (`"AbortError"` is the name carried by the error
thrown when the 15-second abort controller fires). -/
inductive FetchOutcome where
  | success (status : Nat) (responseText : String)
  | thrown (name : String) (msg : String)
  deriving DecidableEq

/-- How `sendMessage` finished: returned normally (recording whether an
`AgentMessageReceived` event was emitted for a returned response message),
or threw an `AriesFrameworkError` with its message and optional wrapped
cause (the original error's `name` and `message`). -/
inductive SendOutcome where
  | ok (emittedReceivedEvent : Bool)
  | ariesFrameworkError (msg : String) (cause : Option (String × String))
  deriving DecidableEq

/-- Observable trace of one `sendMessage` call: whether the `fetch`
collaborator was invoked at all, and how the call finished. -/
structure SendTrace where
  attemptedFetch : Bool
  outcome : SendOutcome
  deriving DecidableEq

/-- Shallow embedding of `HttpOutboundTransport.sendMessage`.  The `fetch`
collaborator's behaviour is supplied as `fetchResult`; `parseOk` stands for
`JsonEncoder.fromString` succeeding on the response body and `validJwe` for
`isValidJweStructure`.  Mirrors the source control flow: a missing endpoint
throws an `AriesFrameworkError` before `fetch` is ever called; an
`AbortError` with `responseRequested` set is swallowed (the request was
aborted by the 15 s timeout but return routing makes that benign); any
other thrown error is rethrown and caught by the outer handler, which wraps
it in an `AriesFrameworkError` whose cause is the original error.  A
response body that is empty (falsy), unparseable, or not a valid JWE is
logged and ignored; a valid one is emitted as an `AgentMessageReceived`
event. -/
def sendMessage (pkg : OutboundPackage) (fetchResult : FetchOutcome)
    (parseOk : String → Bool) (validJwe : String → Bool) : SendTrace :=
  match pkg.endpoint with
  | none =>
      ⟨false, .ariesFrameworkError
        "Missing endpoint. I do not know how and where to send the message." none⟩
  | some endpoint =>
      match fetchResult with
      | .success _ text =>
          if text = "" then ⟨true, .ok false⟩
          else if parseOk text then
            if validJwe text then ⟨true, .ok true⟩
            else ⟨true, .ok false⟩
          else ⟨true, .ok false⟩
      | .thrown name msg =>
          if name = "AbortError" ∧ pkg.responseRequested = true then
            ⟨true, .ok false⟩
          else
            ⟨true, .ariesFrameworkError
              ("Error sending message to " ++ endpoint ++ ": " ++ msg)
              (some (name, msg))⟩

/-! ### Proof-record migration (`getProofRole`, 0.2 → 0.3 update) -/

/-- States of a present-proof exchange record (`ProofState` in the source). -/
inductive ProofState where
  | proposalSent | proposalReceived | requestSent | requestReceived
  | presentationSent | presentationReceived | declined | abandoned | done
  deriving DecidableEq

/-- The role a proof record was acted in (`ProofRole` in the migration). -/
inductive ProofRole where
  | verifier | prover
  deriving DecidableEq

/-- The slice of a 0.2-era proof record that determines its role: its state
and the optional `isVerified` flag (only ever set on verifier records). -/
structure ProofRecord where
  state : ProofState
  isVerified : Option Bool
  deriving DecidableEq

/-- The prover-side states of a present-proof exchange. -/
def proverProofStates : List ProofState :=
  [.declined, .proposalSent, .requestReceived, .presentationSent]

/-- Modelled from the spec: `getProofRole` of the 0.2→0.3 proof-record
migration is absent from the sampled sources (only its unit test is
present).  Per the documented behaviour: a record with `isVerified` set
(whether `true` or `false`) belongs to a verifier; otherwise a record in
state `done` or in a prover state belongs to the prover; every other state
belongs to the verifier. -/
def getProofRole (r : ProofRecord) : ProofRole :=
  if r.isVerified.isSome then .verifier
  else if r.state = .done ∨ r.state ∈ proverProofStates then .prover
  else .verifier

/-! ### Connection records and type-tag queries -/

/-- States of the DID-exchange state machine (`DidExchangeState`). -/
inductive DidExchangeState where
  | start | invitationReceived | requestSent | requestReceived
  | responseSent | responseReceived | abandoned | completed
  deriving DecidableEq

/-- The two roles of a DID-exchange (`ConnectionRole`). -/
inductive ConnectionRole where
  | requester | responder
  deriving DecidableEq

/-- A connection record (`ConnectionRecord`): unique id, DID-exchange
state, role, own DID and counterparty DID (nullable until resolved), the
thread id correlating the request/response pair, a back-reference to the
out-of-band record it was created from, and the free-form connection-type
tag set. -/
structure ConnectionRecord where
  id : Nat
  state : DidExchangeState
  role : ConnectionRole
  did : Option Nat
  theirDid : Option Nat
  threadId : Nat
  outOfBandId : Nat
  connectionTypes : List String
  deriving DecidableEq

/-- Modelled from the spec: `ConnectionService.findAllByConnectionTypes`
(absent from the sampled sources; only its end-to-end test is present).
Returns every record whose connection-type tag set contains all of the
requested `types` (superset / AND semantics); an empty result is an
ordinary value, not an error. -/
def findAllByConnectionTypes (records : List ConnectionRecord)
    (types : List String) : List ConnectionRecord :=
  records.filter (fun r => types.all (fun t => r.connectionTypes.contains t))

/-! ### `returnWhenIsConnected` wait semantics -/

/-- A connection state-changed event as published on the event bus. -/
structure StateChangedEvent where
  connectionId : Nat
  newState : DidExchangeState
  deriving DecidableEq

/-- How a bounded wait finished: with the connected record, or with a
`TimeoutError` because the deadline passed first. -/
inductive WaitOutcome where
  | connected (record : ConnectionRecord)
  | timeoutError
  deriving DecidableEq

/-- Observable trace of one `returnWhenIsConnected` call: its outcome, how
many event-bus subscriptions it created, how many are still open when it
returns, and (when it resolved from the bus) the index of the event that
resolved it. -/
structure WaitResult where
  outcome : WaitOutcome
  subscriptionsCreated : Nat
  subscriptionsOpenAtEnd : Nat
  resolvedAt : Option Nat
  deriving DecidableEq

/-- Does this bus event complete the connection with the given id? -/
def completesConnection (id : Nat) (e : StateChangedEvent) : Bool :=
  e.connectionId = id ∧ e.newState = DidExchangeState.completed

/-- Index of the first event completing connection `id`, if any. -/
def firstCompletedIdx (id : Nat) : List StateChangedEvent → Option Nat
  | [] => none
  | e :: es =>
      if completesConnection id e then some 0
      else (firstCompletedIdx id es).map (· + 1)

/-- Modelled from the spec: `ConnectionService.returnWhenIsConnected`
(absent from the sampled sources; only its callers are present).  The
asynchronous wait is modelled against `events`, the sequence of
state-changed events published on the bus before the `timeoutMs` deadline.
An already-Completed record is returned immediately and no subscription is
created; otherwise one subscription is created, the call resolves on the
first event that moves this record to Completed, or fails with
`TimeoutError` when no such event arrives before the deadline, and in
either outcome the subscription is torn down before returning. -/
def returnWhenIsConnected (record : ConnectionRecord)
    (events : List StateChangedEvent) : WaitResult :=
  if record.state = DidExchangeState.completed then
    ⟨.connected record, 0, 0, none⟩
  else
    match firstCompletedIdx record.id events with
    | some i =>
        ⟨.connected { record with state := DidExchangeState.completed }, 1, 0, some i⟩
    | none => ⟨.timeoutError, 1, 0, none⟩

/-! ### Dispatcher -/

/-- A typed event published on the event bus by the Dispatcher. -/
inductive BusEvent where
  | agentMessageProcessed (rawMessage : String)
  deriving DecidableEq

/-- Result of dispatching: problem reports sent back outbound, and the
events published on the event bus. -/
structure DispatchResult where
  outboundProblemReports : List String
  busEvents : List BusEvent
  deriving DecidableEq

/-- Modelled from the spec: `Dispatcher.dispatch` (absent from the sampled
sources; only observers of its events are present).  The handler registered
for the message's type is `handler` (`none` when no handler is registered);
a handler either succeeds or throws, modelled by `Except`.  A missing
handler emits a problem report and records the event without crashing; a
thrown handler error is caught at the dispatcher boundary and surfaced as a
problem report; in every case exactly one `AgentMessageProcessed` event
carrying the raw message is published after the attempt.  `dispatch` is a
total function: no branch propagates an exception. -/
def dispatch (rawMessage : String)
    (handler : Option (String → Except String Unit)) : DispatchResult :=
  match handler with
  | none => ⟨[rawMessage], [.agentMessageProcessed rawMessage]⟩
  | some h =>
      match h rawMessage with
      | .ok _ => ⟨[], [.agentMessageProcessed rawMessage]⟩
      | .error _ => ⟨[rawMessage], [.agentMessageProcessed rawMessage]⟩

/-- The dispatch loop over a queue of inbound messages, each paired with
the handler (or absence thereof) resolved for its type; results are
concatenated in order.  A handler failure never stops the loop. -/
def dispatchLoop : List (String × Option (String → Except String Unit)) → DispatchResult
  | [] => ⟨[], []⟩
  | (msg, h) :: rest =>
      let r := dispatch msg h
      let rs := dispatchLoop rest
      ⟨r.outboundProblemReports ++ rs.outboundProblemReports,
       r.busEvents ++ rs.busEvents⟩

/-! ### Out-of-band invitations and the DID-exchange protocol -/

/-- Role of an out-of-band record (`OutOfBandRole`). -/
inductive OobRole where
  | sender | receiver
  deriving DecidableEq

/-- State of an out-of-band record (`OutOfBandState`): awaiting a response
or done. -/
inductive OobState where
  | awaitResponse | done
  deriving DecidableEq

/-- An out-of-band record (`OutOfBandRecord`): id, role, state, the
reusable (multi-use) flag and the recipient key the invitation references. -/
structure OutOfBandRecord where
  id : Nat
  role : OobRole
  state : OobState
  reusable : Bool
  recipientKey : Nat
  deriving DecidableEq

/-- A DID-exchange request message: thread id, the invitation key it
targets, and the requester's DID. -/
structure RequestMessage where
  threadId : Nat
  invitationKey : Nat
  did : Nat
  deriving DecidableEq

/-- A DID-exchange response message, correlated to the request's thread. -/
structure ResponseMessage where
  threadId : Nat
  did : Nat
  deriving DecidableEq

/-- Modelled from the spec: the requester side of `receiveInvitation` with
`reuseConnection` false (absent from the sampled sources; only its
end-to-end test is present).  Starting a new DID-exchange as requester
creates a fresh connection record that has passed `Start →
InvitationReceived → RequestSent` and sends a request on a fresh thread. -/
def requesterCreateRequest (oob : OutOfBandRecord) (connId tid ownDid : Nat) :
    ConnectionRecord × RequestMessage :=
  (⟨connId, .requestSent, .requester, some ownDid, none, tid, oob.id, []⟩,
   ⟨tid, oob.recipientKey, ownDid⟩)

/-- Modelled from the spec: the responder handler for a DID-exchange
request.  The request must target a known, still-valid invitation key:
otherwise it is rejected.  On success the responder creates a connection
record (RequestReceived), immediately answers with a response
(ResponseSent), and the out-of-band record transitions to Done exactly when
it is single-use; a reusable record stays in AwaitResponse. -/
def responderProcessRequest (oob : OutOfBandRecord) (msg : RequestMessage)
    (connId ownDid : Nat) :
    Option (ConnectionRecord × ResponseMessage × OutOfBandRecord) :=
  if oob.state = OobState.awaitResponse ∧ msg.invitationKey = oob.recipientKey then
    some (⟨connId, .responseSent, .responder, some ownDid, some msg.did, msg.threadId, oob.id, []⟩,
          ⟨msg.threadId, ownDid⟩,
          if oob.reusable then oob else { oob with state := OobState.done })
  else none

/-- Modelled from the spec: the requester handler for a DID-exchange
response.  The response must correlate to the thread of the request this
record sent; on success the record transitions to Completed. -/
def requesterProcessResponse (record : ConnectionRecord) (msg : ResponseMessage) :
    Option ConnectionRecord :=
  if record.state = DidExchangeState.requestSent ∧ msg.threadId = record.threadId then
    some { record with state := DidExchangeState.completed, theirDid := some msg.did }
  else none

/-- Modelled from the spec: the responder completes its record upon
receiving a message on the same thread after having sent its response. -/
def responderComplete (record : ConnectionRecord) (ackThreadId : Nat) :
    Option ConnectionRecord :=
  if record.state = DidExchangeState.responseSent ∧ ackThreadId = record.threadId then
    some { record with state := DidExchangeState.completed }
  else none

/-- Result of one complete consumption of an invitation: the requester's
final record, the responder's final record, and the out-of-band record as
it stands afterwards. -/
structure ExchangeResult where
  requesterRecord : ConnectionRecord
  responderRecord : ConnectionRecord
  oobAfter : OutOfBandRecord
  deriving DecidableEq

/-- One full `receiveInvitation` consumption (with `reuseConnection`
false): the requester sends a request, the responder validates it and
answers, the requester completes on the response, and the responder
completes on the subsequent message on the same thread.  Fresh identifiers
are drawn from the counter `c`: requester record id `c`, responder record
id `c + 1`, thread id `c + 2`, requester DID `c + 3`, responder DID
`c + 4`. -/
def receiveInvitation (oob : OutOfBandRecord) (c : Nat) : Option ExchangeResult := do
  let (reqRecord, requestMsg) := requesterCreateRequest oob c (c + 2) (c + 3)
  let (respRecord, responseMsg, oobAfter) ←
    responderProcessRequest oob requestMsg (c + 1) (c + 4)
  let reqFinal ← requesterProcessResponse reqRecord responseMsg
  let respFinal ← responderComplete respRecord reqFinal.threadId
  some ⟨reqFinal, respFinal, oobAfter⟩

/-- `n` independent consumptions of the same invitation, each with fresh
identifiers (the counter advances by 5 per consumption), threading the
out-of-band record through.  Fails if any single consumption is rejected. -/
def receiveInvitationN (oob : OutOfBandRecord) (c : Nat) :
    Nat → Option (List ExchangeResult × OutOfBandRecord)
  | 0 => some ([], oob)
  | n + 1 => do
      let r ← receiveInvitation oob c
      let (rs, oobFinal) ← receiveInvitationN r.oobAfter (c + 5) n
      some (r :: rs, oobFinal)

/-! ### Mediation recipient service — keylist coordination -/

/-- A verification key in its raw (base58) encoding, as a character list. -/
abbrev Verkey := List Char

/-- The prefix of the DID-key encoding of a verification key; the encoding
itself is a pure, invertible boundary function (`verkeyToDidKey` /
`didKeyToVerkey` in the source helpers). -/
def didKeyMarker : List Char := "did:key:z".toList

/-- DID-key-encode a raw verification key (`verkeyToDidKey`). -/
def verkeyToDidKey (v : Verkey) : List Char := didKeyMarker ++ v

/-- Decode a DID-key-encoded string back to the raw key
(`didKeyToVerkey`). -/
def didKeyToVerkey (s : List Char) : Verkey := s.drop didKeyMarker.length

/-- The two keylist-update actions (`KeylistUpdateAction`). -/
inductive KeylistUpdateAction where
  | add | remove
  deriving DecidableEq

/-- One entry of a `KeylistUpdate` protocol message: an action and the
recipient key in its on-the-wire DID-key encoding. -/
structure KeylistUpdateItem where
  action : KeylistUpdateAction
  recipientKey : List Char
  deriving DecidableEq

/-- The mediation-relevant state of an agent: whether a Granted mediator is
active, which keys have already been announced to it, the live connections
with the recipient key of each connection's own DID document, and the
ordered trace of keylist-update entries sent to the mediator. -/
structure MediationState where
  mediatorActive : Bool
  announced : List Verkey
  connections : List (Nat × Verkey)
  sent : List KeylistUpdateItem
  deriving DecidableEq

/-- The state of a freshly provisioned agent: active mediator, no keys
announced yet, no connections, nothing sent. -/
def initialMediationState : MediationState := ⟨true, [], [], []⟩

/-- Modelled from the spec: the key-lifecycle observer installed by
`MediationRecipientService.initialize` (absent from the sampled sources;
only its end-to-end test is present).  Whenever a recipient key becomes
active, exactly one keylist-update `add` entry for that key is sent to the
active mediator — once per key, regardless of how many invitations or
connections reference it later, and not at all without an active
mediator. -/
def keyBecameActive (s : MediationState) (k : Verkey) : MediationState :=
  if s.mediatorActive = true ∧ k ∉ s.announced then
    { s with
      announced := k :: s.announced,
      sent := s.sent ++ [⟨.add, verkeyToDidKey k⟩] }
  else s

/-- Modelled from the spec: the mediation side effect of
`createInvitation` — the freshly generated invitation recipient key becomes
active. -/
def createInvitationKey (s : MediationState) (k : Verkey) : MediationState :=
  keyBecameActive s k

/-- Modelled from the spec: a connection's own DID becoming resolvable —
the connection (with its DID document's recipient key) is recorded and the
key becomes active. -/
def connectionDidResolvable (s : MediationState) (connId : Nat) (k : Verkey) :
    MediationState :=
  keyBecameActive { s with connections := s.connections ++ [(connId, k)] } k

/-- Modelled from the spec: `ConnectionService.deleteById` (absent from the
sampled sources; only its end-to-end test is present).  Deleting a
connection removes its record and sends exactly one keylist-update `remove`
entry for the recipient key of the connection's resolved DID document to
the active mediator. -/
def deleteById (s : MediationState) (connId : Nat) : MediationState :=
  match s.connections.find? (fun p => p.1 = connId) with
  | none => s
  | some (_, k) =>
      { s with
        connections := s.connections.filter (fun p => p.1 != connId),
        sent :=
          if s.mediatorActive then s.sent ++ [⟨.remove, verkeyToDidKey k⟩]
          else s.sent }

/-- The operations driving the mediation state. -/
inductive MediationOp where
  | invitationKey (k : Verkey)
  | didResolvable (connId : Nat) (k : Verkey)
  | delete (connId : Nat)
  deriving DecidableEq

/-- Apply one mediation operation. -/
def applyMediationOp (s : MediationState) : MediationOp → MediationState
  | .invitationKey k => createInvitationKey s k
  | .didResolvable c k => connectionDidResolvable s c k
  | .delete c => deleteById s c

/-- Run a sequence of mediation operations. -/
def runMediation (s : MediationState) : List MediationOp → MediationState
  | [] => s
  | op :: ops => runMediation (applyMediationOp s op) ops

/-- Number of `add` entries for raw key `k` in a sent trace. -/
def countAdd (k : Verkey) (t : List KeylistUpdateItem) : Nat :=
  (t.filter (fun u => u == ⟨.add, verkeyToDidKey k⟩)).length

/-! ### Storage migration (`UpdateAssistant.update`) -/

/-- A stored wallet record, identified by its serialized form. -/
abbrev StoredRecord := String

/-- One migration step: transforms the stored records, or throws the
carried error. -/
abbrev MigrationStep := List StoredRecord → Except String (List StoredRecord)

/-- The error `update` surfaces when a migration step throws: it wraps the
original error as its cause. -/
structure StorageUpdateError where
  cause : String
  deriving DecidableEq

/-- The effect of running the needed migration steps in order without any
backup machinery: the migrated records, or the first error thrown. -/
def runMigrationSteps : List MigrationStep → List StoredRecord →
    Except String (List StoredRecord)
  | [], store => .ok store
  | step :: rest, store =>
      match step store with
      | .ok store2 => runMigrationSteps rest store2
      | .error e => .error e

/-- Modelled from the spec: the inner loop of `UpdateAssistant.update`
(absent from the sampled sources; only its test is present).  Each
successful step persists its changes to the store; when a step throws, the
pre-update `backup` is restored and a `StorageUpdateError` wrapping the
original error is surfaced. -/
def updateLoop (backup : List StoredRecord) :
    List MigrationStep → List StoredRecord →
    List StoredRecord × Option StorageUpdateError
  | [], store => (store, none)
  | step :: rest, store =>
      match step store with
      | .ok store2 => updateLoop backup rest store2
      | .error e => (backup, some ⟨e⟩)

/-- Modelled from the spec: `UpdateAssistant.update` — takes a backup of
the stored records before migrating, then runs the needed update steps;
returns the final stored records together with the error surfaced to the
caller, if any. -/
def update (steps : List MigrationStep) (records : List StoredRecord) :
    List StoredRecord × Option StorageUpdateError :=
  updateLoop records steps records

/-! ### Invitation URL codec (`toUrl` / `fromUrl`) -/

/-- The base64url alphabet, in value order. -/
def b64Alphabet : List Char :=
  "ABCDEFGHIJKLMNOPQRSTUVWXYZabcdefghijklmnopqrstuvwxyz0123456789-_".toList

/-- The character encoding a 6-bit value. -/
def b64Char (n : Nat) : Char := b64Alphabet.getD n 'A'

/-- Index of a character in a character list, if present. -/
def charIdx (c : Char) : List Char → Option Nat
  | [] => none
  | a :: as => if a = c then some 0 else (charIdx c as).map (· + 1)

/-- The 6-bit value a base64url character stands for, if any. -/
def b64CharDec (c : Char) : Option Nat := charIdx c b64Alphabet

/-- Regroup a byte sequence into 6-bit values (base64url without padding):
three bytes become four sextets, a trailing byte two, two trailing bytes
three. -/
def b64Sextets : List Nat → List Nat
  | [] => []
  | [b1] => [b1 / 4, b1 % 4 * 16]
  | [b1, b2] => [b1 / 4, b1 % 4 * 16 + b2 / 16, b2 % 16 * 4]
  | b1 :: b2 :: b3 :: rest =>
      b1 / 4 :: (b1 % 4 * 16 + b2 / 16) :: (b2 % 16 * 4 + b3 / 64) :: b3 % 64 ::
        b64Sextets rest

/-- Regroup 6-bit values back into bytes; `none` on a group length no
unpadded base64url encoding produces. -/
def b64Unsextets : List Nat → Option (List Nat)
  | [] => some []
  | [_] => none
  | [c1, c2] => some [c1 * 4 + c2 / 16]
  | [c1, c2, c3] => some [c1 * 4 + c2 / 16, c2 % 16 * 16 + c3 / 4]
  | c1 :: c2 :: c3 :: c4 :: rest =>
      (b64Unsextets rest).map
        (fun bs => (c1 * 4 + c2 / 16) :: (c2 % 16 * 16 + c3 / 4) ::
          (c3 % 4 * 64 + c4) :: bs)

/-- Base64url-encode a byte sequence. -/
def encodeB64 (bytes : List Nat) : List Char := (b64Sextets bytes).map b64Char

/-- Base64url-decode a character sequence; `none` on malformed input. -/
def decodeB64 (cs : List Char) : Option (List Nat) :=
  (cs.mapM b64CharDec).bind b64Unsextets

/-- An out-of-band invitation, represented by the byte sequence of its
serialized JSON document (the JSON codec itself is a pure collaborator
boundary the spec leaves unspecified). -/
structure OutOfBandInvitation where
  document : List Nat
  deriving DecidableEq

/-- The query-parameter marker separating the base URL from the encoded
invitation (the characters of `?oob=`). -/
def oobMarker : List Char := ['?', 'o', 'o', 'b', '=']

/-- The query character, which a well-formed base URL does not contain. -/
def qMark : Char := '?'

/-- Modelled from the spec: `OutOfBandInvitation.toUrl` (absent from the
sampled sources; only its callers are present) — appends the invitation as
a base64url-encoded query parameter to the caller-supplied base URL. -/
def toUrl (inv : OutOfBandInvitation) (domain : List Char) : List Char :=
  domain ++ oobMarker ++ encodeB64 inv.document

/-- Split a URL at the first occurrence of the invitation query marker. -/
def splitAtMarker : List Char → Option (List Char × List Char)
  | [] => none
  | c :: cs =>
      if oobMarker.isPrefixOf (c :: cs) then
        some ([], (c :: cs).drop oobMarker.length)
      else
        match splitAtMarker cs with
        | some (pre, post) => some (c :: pre, post)
        | none => none

/-- Modelled from the spec: `parseInvitationFromUrl` as used by
`receiveInvitationFromUrl` — extracts the invitation query parameter and
base64url-decodes it; `none` models failing with
`InvalidInvitationError` on malformed encoding. -/
def fromUrl (url : List Char) : Option OutOfBandInvitation :=
  (splitAtMarker url).bind fun p => (decodeB64 p.2).map OutOfBandInvitation.mk

/-- Temporal precedence inside a sent keylist-update trace: every `remove`
entry is preceded (strictly earlier in the trace) by an `add` entry for the
same recipient key. -/
def AddBeforeRemove (t : List KeylistUpdateItem) : Prop :=
  ∀ j, ∀ hj : j < t.length,
    (t.get ⟨j, hj⟩).action = KeylistUpdateAction.remove →
    ∃ y ∈ t.take j, y.action = KeylistUpdateAction.add ∧
      y.recipientKey = (t.get ⟨j, hj⟩).recipientKey

/-! ## Theorems -/

/-- C4: `findAllByConnectionTypes` has superset (AND) semantics — a record
is in the result exactly when it is stored and its tag set contains every
requested type; consequently a query containing any type absent from the
record's tags excludes it. -/
theorem c4_find_all_by_connection_types_superset
    (records : List ConnectionRecord) (types : List String)
    (r : ConnectionRecord) :
    (r ∈ findAllByConnectionTypes records types ↔
      r ∈ records ∧ ∀ t ∈ types, t ∈ r.connectionTypes) ∧
    (∀ t ∈ types, t ∉ r.connectionTypes →
      r ∉ findAllByConnectionTypes records types) := by
  have h : r ∈ findAllByConnectionTypes records types ↔
      r ∈ records ∧ ∀ t ∈ types, t ∈ r.connectionTypes := by
    simp [findAllByConnectionTypes, List.mem_filter, List.all_eq_true]
  refine ⟨h, fun t ht habsent hmem => habsent ((h.mp hmem).2 t ht)⟩

/-- C4 witness: a concrete record tagged with three types is found by a
two-type sub-query and excluded by a query containing an absent type. -/
theorem c4_witness :
    ((⟨0, .completed, .requester, none, none, 0, 0, ["t1", "t2", "t3"]⟩ ∈
        findAllByConnectionTypes
          [⟨0, .completed, .requester, none, none, 0, 0, ["t1", "t2", "t3"]⟩]
          ["t1", "t3"]) ↔
      (⟨0, .completed, .requester, none, none, 0, 0, ["t1", "t2", "t3"]⟩ ∈
          [(⟨0, .completed, .requester, none, none, 0, 0, ["t1", "t2", "t3"]⟩ :
            ConnectionRecord)] ∧
        ∀ t ∈ ["t1", "t3"], t ∈ ["t1", "t2", "t3"])) ∧
    (⟨0, .completed, .requester, none, none, 0, 0, ["t1", "t2", "t3"]⟩ ∉
      findAllByConnectionTypes
        [⟨0, .completed, .requester, none, none, 0, 0, ["t1", "t2", "t3"]⟩]
        ["t1", "t4"]) := by
  refine ⟨(c4_find_all_by_connection_types_superset _ _ _).1, ?_⟩
  exact (c4_find_all_by_connection_types_superset
      [⟨0, .completed, .requester, none, none, 0, 0, ["t1", "t2", "t3"]⟩]
      ["t1", "t4"] _).2 "t4" (by decide) (by decide)

/-- C10: `getProofRole` returns Verifier whenever `isVerified` is set
(whether to `true` or `false`); with `isVerified` unset it returns Prover
exactly on state Done or a prover state, and Verifier on every other
state. -/
theorem c10_get_proof_role (r : ProofRecord) :
    (r.isVerified.isSome → getProofRole r = ProofRole.verifier) ∧
    (r.isVerified = none →
      (r.state = ProofState.done ∨ r.state ∈ proverProofStates) →
      getProofRole r = ProofRole.prover) ∧
    (r.isVerified = none → r.state ≠ ProofState.done →
      r.state ∉ proverProofStates → getProofRole r = ProofRole.verifier) := by
  refine ⟨fun h => ?_, fun hn hs => ?_, fun hn hd hp => ?_⟩
  · simp [getProofRole, h]
  · simp [getProofRole, hn, hs]
  · simp [getProofRole, hn, hd, hp]

/-- C10 witness: a verified record is a verifier's, an unset record in
state Done is the prover's, and an unset record in PresentationReceived is
the verifier's. -/
theorem c10_witness :
    getProofRole ⟨.presentationReceived, some false⟩ = ProofRole.verifier ∧
    getProofRole ⟨.done, none⟩ = ProofRole.prover ∧
    getProofRole ⟨.presentationReceived, none⟩ = ProofRole.verifier := by
  refine ⟨(c10_get_proof_role _).1 (by decide), ?_, ?_⟩
  · exact (c10_get_proof_role _).2.1 rfl (Or.inl rfl)
  · exact (c10_get_proof_role _).2.2 rfl (by decide) (by decide)

/-- C9: `sendMessage` throws an `AriesFrameworkError` without calling
`fetch` when the package has no endpoint; an abort of the 15 s timeout is
swallowed when the package requested a response; any other thrown delivery
error is rethrown as an `AriesFrameworkError` wrapping the original error
as its cause. -/
theorem c9_http_outbound_send_message (pkg : OutboundPackage)
    (f : FetchOutcome) (parseOk validJwe : String → Bool) :
    (pkg.endpoint = none →
      sendMessage pkg f parseOk validJwe =
        ⟨false, .ariesFrameworkError
          "Missing endpoint. I do not know how and where to send the message."
          none⟩) ∧
    (∀ e name msg, pkg.endpoint = some e → f = .thrown name msg →
      ((name = "AbortError" ∧ pkg.responseRequested = true) →
        sendMessage pkg f parseOk validJwe = ⟨true, .ok false⟩) ∧
      (¬(name = "AbortError" ∧ pkg.responseRequested = true) →
        sendMessage pkg f parseOk validJwe =
          ⟨true, .ariesFrameworkError
            ("Error sending message to " ++ e ++ ": " ++ msg)
            (some (name, msg))⟩)) := by
  refine ⟨fun h => ?_, fun e name msg he hf => ⟨fun h => ?_, fun h => ?_⟩⟩
  · simp [sendMessage, h]
  · simp [sendMessage, he, hf, h]
  · simp [sendMessage, he, hf, h]

/-- C9 witness: a package with no endpoint fails without a fetch; an
aborted request with return routing is swallowed; a refused connection is
wrapped with its cause. -/
theorem c9_witness :
    sendMessage ⟨"m", none, true⟩ (.thrown "x" "y") (fun _ => true)
        (fun _ => true) =
      ⟨false, .ariesFrameworkError
        "Missing endpoint. I do not know how and where to send the message."
        none⟩ ∧
    sendMessage ⟨"m", some "http://e", true⟩ (.thrown "AbortError" "aborted")
        (fun _ => true) (fun _ => true) = ⟨true, .ok false⟩ ∧
    sendMessage ⟨"m", some "http://e", false⟩ (.thrown "FetchError" "refused")
        (fun _ => true) (fun _ => true) =
      ⟨true, .ariesFrameworkError
        "Error sending message to http://e: refused"
        (some ("FetchError", "refused"))⟩ := by
  refine ⟨(c9_http_outbound_send_message _ _ _ _).1 rfl, ?_, ?_⟩
  · exact ((c9_http_outbound_send_message _ _ _ _).2 "http://e" "AbortError"
      "aborted" rfl rfl).1 (by decide)
  · exact ((c9_http_outbound_send_message _ _ _ _).2 "http://e" "FetchError"
      "refused" rfl rfl).2 (by decide)

/-- C6: after every dispatch attempt — handler success, handler error, or
no registered handler — exactly one `AgentMessageProcessed` event carrying
the raw message is published, and the dispatch loop, being a total
function, processes every queued message regardless of earlier handler
failures. -/
theorem c6_dispatch_emits_one_processed_event
    (queue : List (String × Option (String → Except String Unit))) :
    (dispatchLoop queue).busEvents =
      queue.map (fun item => BusEvent.agentMessageProcessed item.1) ∧
    ∀ msg handler,
      (dispatch msg handler).busEvents.count
        (BusEvent.agentMessageProcessed msg) = 1 := by
  constructor
  · induction queue with
    | nil => rfl
    | cons item rest ih =>
        obtain ⟨msg, handler⟩ := item
        have hone : (dispatch msg handler).busEvents =
            [BusEvent.agentMessageProcessed msg] := by
          cases handler with
          | none => rfl
          | some h => rcases hres : h msg <;> simp [dispatch, hres]
        simp [dispatchLoop, hone, ih]
  · intro msg handler
    cases handler with
    | none => simp [dispatch]
    | some h => rcases hres : h msg <;> simp [dispatch, hres]

/-- C6 witness: a queue holding a succeeding handler, a throwing handler
and an unregistered message type yields exactly one processed event per
message, in order. -/
theorem c6_witness :
    (dispatchLoop
        [("ok-msg", some fun _ => Except.ok ()),
         ("boom-msg", some fun _ => Except.error "boom"),
         ("unknown-msg", none)]).busEvents =
      [BusEvent.agentMessageProcessed "ok-msg",
       BusEvent.agentMessageProcessed "boom-msg",
       BusEvent.agentMessageProcessed "unknown-msg"] ∧
    (dispatch "boom-msg" (some fun _ => Except.error "boom")).busEvents.count
      (BusEvent.agentMessageProcessed "boom-msg") = 1 := by
  refine ⟨(c6_dispatch_emits_one_processed_event _).1, ?_⟩
  exact (c6_dispatch_emits_one_processed_event []).2 "boom-msg"
    (some fun _ => Except.error "boom")

/-- The update loop refines `runMigrationSteps`: it returns the migrated
store on success, and the untouched backup plus a `StorageUpdateError`
wrapping the original error when any step throws. -/
theorem updateLoop_eq_runMigrationSteps (backup : List StoredRecord)
    (steps : List MigrationStep) (store : List StoredRecord) :
    updateLoop backup steps store =
      match runMigrationSteps steps store with
      | .ok final => (final, none)
      | .error e => (backup, some ⟨e⟩) := by
  induction steps generalizing store with
  | nil => rfl
  | cons step rest ih =>
      simp only [updateLoop, runMigrationSteps]
      cases step store with
      | ok store2 => exact ih store2
      | error e => rfl

/-- C8: if any migration step throws during `update`, the caller receives
a `StorageUpdateError` whose cause is the original error and the stored
records are exactly the pre-update records (the backup is restored); a
failed storage update never leaves the store partially migrated. -/
theorem c8_update_restores_backup_on_error (steps : List MigrationStep)
    (records : List StoredRecord) :
    (∀ e, runMigrationSteps steps records = .error e →
      update steps records = (records, some ⟨e⟩)) ∧
    (∀ final, runMigrationSteps steps records = .ok final →
      update steps records = (final, none)) := by
  constructor
  · intro e he
    simp [update, updateLoop_eq_runMigrationSteps, he]
  · intro final hf
    simp [update, updateLoop_eq_runMigrationSteps, hf]

/-- C8 witness: a migration whose second step throws after a first step
that rewrites every record leaves the store exactly as it was and surfaces
the thrown error as the cause. -/
theorem c8_witness :
    update
        [fun _ => Except.ok ["migrated"],
         fun _ => Except.error "Uh oh I am broken"]
        ["r1", "r2"] =
      (["r1", "r2"], some ⟨"Uh oh I am broken"⟩) := by
  exact (c8_update_restores_backup_on_error _ _).1 "Uh oh I am broken" rfl

/-- `firstCompletedIdx` returns `none` exactly when no event in the list
completes the connection. -/
theorem firstCompletedIdx_eq_none (id : Nat) (events : List StateChangedEvent) :
    firstCompletedIdx id events = none ↔
      ∀ e ∈ events, completesConnection id e = false := by
  induction events with
  | nil => simp [firstCompletedIdx]
  | cons e es ih =>
      cases h : completesConnection id e with
      | true => simp [firstCompletedIdx, h]
      | false => simp [firstCompletedIdx, h, Option.map_eq_none', ih]

/-- `firstCompletedIdx` returns the index of the first completing event:
the indexed event completes the connection and no strictly earlier one
does. -/
theorem firstCompletedIdx_eq_some (id : Nat) (events : List StateChangedEvent)
    (i : Nat) (h : firstCompletedIdx id events = some i) :
    ∃ hi : i < events.length,
      completesConnection id (events.get ⟨i, hi⟩) = true ∧
      ∀ j, ∀ hj : j < events.length, j < i →
        completesConnection id (events.get ⟨j, hj⟩) = false := by
  induction events generalizing i with
  | nil => simp [firstCompletedIdx] at h
  | cons e es ih =>
      by_cases he : completesConnection id e
      · simp [firstCompletedIdx, he] at h
        subst h
        exact ⟨Nat.succ_pos _, by simpa using he, fun j hj hji => absurd hji (Nat.not_lt_zero j)⟩
      · simp [firstCompletedIdx, he] at h
        obtain ⟨i', hrec, hi⟩ := h
        obtain ⟨hi', hcomp, hearlier⟩ := ih i' hrec
        subst hi
        refine ⟨Nat.succ_lt_succ hi', by simpa using hcomp, ?_⟩
        intro j hj hji
        cases j with
        | zero => simpa [Bool.not_eq_true] using he
        | succ j' =>
            exact hearlier j' (Nat.lt_of_succ_lt_succ hj) (Nat.lt_of_succ_lt_succ hji)

/-- C5: `returnWhenIsConnected` returns an already-Completed record
immediately without creating a subscription; on a pending record it
creates one subscription, resolves exactly at the first event that moves
the record to Completed, fails with `TimeoutError` when no such event
arrives before the deadline, and in every case no subscription is left
open on return. -/
theorem c5_return_when_is_connected (record : ConnectionRecord)
    (events : List StateChangedEvent) :
    (returnWhenIsConnected record events).subscriptionsOpenAtEnd = 0 ∧
    (record.state = DidExchangeState.completed →
      returnWhenIsConnected record events =
        ⟨.connected record, 0, 0, none⟩) ∧
    (record.state ≠ DidExchangeState.completed →
      (returnWhenIsConnected record events).subscriptionsCreated = 1 ∧
      ((∀ e ∈ events, completesConnection record.id e = false) →
        (returnWhenIsConnected record events).outcome = .timeoutError) ∧
      (∀ i, (returnWhenIsConnected record events).resolvedAt = some i →
        ∃ hi : i < events.length,
          completesConnection record.id (events.get ⟨i, hi⟩) = true ∧
          (∀ j, ∀ hj : j < events.length, j < i →
            completesConnection record.id (events.get ⟨j, hj⟩) = false) ∧
          (returnWhenIsConnected record events).outcome =
            .connected { record with state := DidExchangeState.completed })) := by
  refine ⟨?_, fun hc => ?_, fun hp => ⟨?_, fun hnone => ?_, fun i hres => ?_⟩⟩
  · unfold returnWhenIsConnected
    by_cases hc : record.state = DidExchangeState.completed
    · simp [hc]
    · rcases hidx : firstCompletedIdx record.id events <;> simp [hc, hidx]
  · simp [returnWhenIsConnected, hc]
  · rcases hidx : firstCompletedIdx record.id events <;>
      simp [returnWhenIsConnected, hp, hidx]
  · have hidx : firstCompletedIdx record.id events = none :=
      (firstCompletedIdx_eq_none record.id events).mpr hnone
    simp [returnWhenIsConnected, hp, hidx]
  · rcases hidx : firstCompletedIdx record.id events with _ | i'
    · simp [returnWhenIsConnected, hp, hidx] at hres
    · simp [returnWhenIsConnected, hp, hidx] at hres
      subst hres
      obtain ⟨hi, hcomp, hearlier⟩ :=
        firstCompletedIdx_eq_some record.id events i' hidx
      exact ⟨hi, hcomp, hearlier, by simp [returnWhenIsConnected, hp, hidx]⟩

/-- C5 witness: a completed record returns immediately with no
subscription; a pending record resolves at the first completing event (an
event for another connection arriving first), and times out when no
completing event arrives. -/
theorem c5_witness :
    returnWhenIsConnected
        ⟨7, .completed, .requester, none, none, 1, 2, []⟩
        [] =
      ⟨.connected ⟨7, .completed, .requester, none, none, 1, 2, []⟩, 0, 0, none⟩ ∧
    (returnWhenIsConnected
        ⟨7, .requestSent, .requester, none, none, 1, 2, []⟩
        [⟨9, .completed⟩, ⟨7, .completed⟩]).resolvedAt = some 1 ∧
    (returnWhenIsConnected
        ⟨7, .requestSent, .requester, none, none, 1, 2, []⟩
        [⟨9, .completed⟩]).outcome = .timeoutError := by
  refine ⟨(c5_return_when_is_connected _ _).2.1 rfl, by decide, ?_⟩
  exact ((c5_return_when_is_connected
      ⟨7, .requestSent, .requester, none, none, 1, 2, []⟩
      [⟨9, .completed⟩]).2.2 (by decide)).2.1 (by decide)

/-- Consuming a reusable invitation in AwaitResponse succeeds: both sides
complete the DID-exchange and the out-of-band record is returned
unchanged. -/
theorem receiveInvitation_reusable (oob : OutOfBandRecord) (c : Nat)
    (hreuse : oob.reusable = true)
    (hstate : oob.state = OobState.awaitResponse) :
    receiveInvitation oob c = some
      ⟨⟨c, .completed, .requester, some (c + 3), some (c + 4), c + 2, oob.id, []⟩,
       ⟨c + 1, .completed, .responder, some (c + 4), some (c + 3), c + 2, oob.id, []⟩,
       oob⟩ := by
  simp [receiveInvitation, requesterCreateRequest, responderProcessRequest,
    requesterProcessResponse, responderComplete, hreuse, hstate]

/-- `n` consumptions of a reusable invitation all succeed, leave the
out-of-band record unchanged, complete every record on both sides, and
draw requester/responder record ids from disjoint arithmetic
progressions. -/
theorem receiveInvitationN_reusable (oob : OutOfBandRecord)
    (hreuse : oob.reusable = true)
    (hstate : oob.state = OobState.awaitResponse) :
    ∀ n c, ∃ results : List ExchangeResult,
      receiveInvitationN oob c n = some (results, oob) ∧
      results.length = n ∧
      (∀ r ∈ results, r.requesterRecord.state = .completed ∧
        r.responderRecord.state = .completed) ∧
      results.map (fun r => r.requesterRecord.id) =
        (List.range n).map (fun i => c + 5 * i) ∧
      results.map (fun r => r.responderRecord.id) =
        (List.range n).map (fun i => c + 5 * i + 1) := by
  intro n
  induction n with
  | zero => exact fun c => ⟨[], rfl, rfl, by simp, by simp, by simp⟩
  | succ n ih =>
      intro c
      obtain ⟨results, hrec, hlen, hstates, hreq, hresp⟩ := ih (c + 5)
      refine ⟨⟨⟨c, .completed, .requester, some (c + 3), some (c + 4), c + 2, oob.id, []⟩,
          ⟨c + 1, .completed, .responder, some (c + 4), some (c + 3), c + 2, oob.id, []⟩,
          oob⟩ :: results, ?_, ?_, ?_, ?_, ?_⟩
      · simp [receiveInvitationN, receiveInvitation_reusable oob c hreuse hstate, hrec]
      · simp [hlen]
      · intro r hr
        rcases List.mem_cons.mp hr with h | h
        · subst h; exact ⟨rfl, rfl⟩
        · exact hstates r h
      · simp only [List.map_cons, hreq, List.range_succ_eq_map, List.map_map]
        refine congrArg₂ _ (by omega) (List.map_congr_left fun i _ => ?_)
        simp [Function.comp]
        omega
      · simp only [List.map_cons, hresp, List.range_succ_eq_map, List.map_map]
        refine congrArg₂ _ (by omega) (List.map_congr_left fun i _ => ?_)
        simp [Function.comp]
        omega

/-- C1: on a reusable (multi-use) invitation in AwaitResponse, `n`
independent `receiveInvitation` consumptions (reuseConnection false) all
succeed, each creating connection records that reach Completed on both the
requester and responder sides, with requester-side and responder-side
connection ids each pairwise distinct, and the invitation's out-of-band
record is still the unchanged AwaitResponse record afterwards. -/
theorem c1_multi_use_fanout (oob : OutOfBandRecord) (c n : Nat)
    (hreuse : oob.reusable = true)
    (hstate : oob.state = OobState.awaitResponse) :
    ∃ results : List ExchangeResult,
      receiveInvitationN oob c n = some (results, oob) ∧
      results.length = n ∧
      (∀ r ∈ results, r.requesterRecord.state = .completed ∧
        r.responderRecord.state = .completed) ∧
      (results.map (fun r => r.requesterRecord.id)).Nodup ∧
      (results.map (fun r => r.responderRecord.id)).Nodup ∧
      oob.state = OobState.awaitResponse := by
  obtain ⟨results, h1, h2, h3, h4, h5⟩ :=
    receiveInvitationN_reusable oob hreuse hstate n c
  refine ⟨results, h1, h2, h3, ?_, ?_, hstate⟩
  · rw [h4]
    exact List.Nodup.map (fun a b h => by omega) (List.nodup_range n)
  · rw [h5]
    exact List.Nodup.map (fun a b h => by omega) (List.nodup_range n)

/-- C1 witness: two consumptions of a concrete reusable invitation. -/
theorem c1_witness :
    ∃ results : List ExchangeResult,
      receiveInvitationN ⟨0, .sender, .awaitResponse, true, 42⟩ 100 2 =
        some (results, ⟨0, .sender, .awaitResponse, true, 42⟩) ∧
      results.length = 2 ∧
      (∀ r ∈ results, r.requesterRecord.state = .completed ∧
        r.responderRecord.state = .completed) ∧
      (results.map (fun r => r.requesterRecord.id)).Nodup ∧
      (results.map (fun r => r.responderRecord.id)).Nodup ∧
      (⟨0, .sender, .awaitResponse, true, 42⟩ : OutOfBandRecord).state =
        OobState.awaitResponse :=
  c1_multi_use_fanout ⟨0, .sender, .awaitResponse, true, 42⟩ 100 2 rfl rfl

/-- The DID-key encoding of recipient keys is injective. -/
@[simp]
theorem verkeyToDidKey_inj {a b : Verkey} :
    verkeyToDidKey a = verkeyToDidKey b ↔ a = b := by
  constructor
  · exact fun h => List.append_cancel_left h
  · exact fun h => h ▸ rfl

/-- Decoding a DID-key-encoded key recovers the raw key. -/
@[simp]
theorem didKeyToVerkey_verkeyToDidKey (v : Verkey) :
    didKeyToVerkey (verkeyToDidKey v) = v := by
  simp [didKeyToVerkey, verkeyToDidKey, List.drop_left]

/-- `countAdd` distributes over trace concatenation. -/
theorem countAdd_append (k : Verkey) (t1 t2 : List KeylistUpdateItem) :
    countAdd k (t1 ++ t2) = countAdd k t1 + countAdd k t2 := by
  simp [countAdd, List.filter_append]

/-- `keyBecameActive` preserves the keylist-sync invariant: the trace holds
exactly one `add` entry for each announced key and none for any other
key. -/
theorem keyBecameActive_countAdd (s : MediationState) (k' : Verkey)
    (h : ∀ k, countAdd k s.sent = if k ∈ s.announced then 1 else 0) :
    ∀ k, countAdd k (keyBecameActive s k').sent =
      if k ∈ (keyBecameActive s k').announced then 1 else 0 := by
  intro k
  unfold keyBecameActive
  by_cases hc : s.mediatorActive = true ∧ k' ∉ s.announced
  · rw [if_pos hc]
    rw [countAdd_append]
    by_cases hk : k = k'
    · subst hk
      have h0 : countAdd k s.sent = 0 := by simp [h k, hc.2]
      have h1 : countAdd k [⟨.add, verkeyToDidKey k⟩] = 1 := by
        simp [countAdd]
      simp [h0, h1]
    · have h1 : countAdd k [⟨.add, verkeyToDidKey k'⟩] = 0 := by
        simp [countAdd, Ne.symm hk]
      simp only [h1, Nat.add_zero, h k]
      simp [List.mem_cons, hk]
  · rw [if_neg hc]
    exact h k

/-- `deleteById` preserves the keylist-sync invariant: it never sends an
`add` entry and leaves the announced set unchanged. -/
theorem deleteById_countAdd (s : MediationState) (connId : Nat)
    (h : ∀ k, countAdd k s.sent = if k ∈ s.announced then 1 else 0) :
    ∀ k, countAdd k (deleteById s connId).sent =
      if k ∈ (deleteById s connId).announced then 1 else 0 := by
  intro k
  rcases hf : s.connections.find? (fun p => p.1 = connId) with _ | ⟨c, k'⟩
  · simp [deleteById, hf, h k]
  · by_cases ha : s.mediatorActive = true
    · have hrm : countAdd k [⟨.remove, verkeyToDidKey k'⟩] = 0 := by
        simp [countAdd]
      simp [deleteById, hf, ha, countAdd_append, hrm, h k]
    · simp [deleteById, hf, ha, h k]

/-- Every run of mediation operations preserves the keylist-sync
invariant. -/
theorem runMediation_countAdd (ops : List MediationOp) :
    ∀ s, (∀ k, countAdd k s.sent = if k ∈ s.announced then 1 else 0) →
      ∀ k, countAdd k (runMediation s ops).sent =
        if k ∈ (runMediation s ops).announced then 1 else 0 := by
  induction ops with
  | nil => exact fun s h => h
  | cons op rest ih =>
      intro s h
      apply ih
      cases op with
      | invitationKey k' => exact keyBecameActive_countAdd s k' h
      | didResolvable c k' =>
          exact keyBecameActive_countAdd
            { s with connections := s.connections ++ [(c, k')] } k' h
      | delete c => exact deleteById_countAdd s c h

/-- C2: with an active mediator, every run of key-lifecycle operations
sends at most one (and, for announced keys, exactly one) keylist `add`
update per recipient key; in particular one multi-use invitation followed
by two consumed connections sends exactly three `add` updates whose
decoded recipient keys are the invitation key and the two connection-DID
keys, in order. -/
theorem c2_keylist_add_once_per_key (ops : List MediationOp)
    (k0 k1 k2 : Verkey) (c1 c2 : Nat)
    (h01 : k0 ≠ k1) (h02 : k0 ≠ k2) (h12 : k1 ≠ k2) :
    (∀ k, countAdd k (runMediation initialMediationState ops).sent ≤ 1) ∧
    (runMediation initialMediationState
        [.invitationKey k0, .didResolvable c1 k1, .didResolvable c2 k2]).sent =
      [⟨.add, verkeyToDidKey k0⟩, ⟨.add, verkeyToDidKey k1⟩,
        ⟨.add, verkeyToDidKey k2⟩] ∧
    (runMediation initialMediationState
        [.invitationKey k0, .didResolvable c1 k1, .didResolvable c2 k2]).sent.length
      = 3 ∧
    (runMediation initialMediationState
        [.invitationKey k0, .didResolvable c1 k1, .didResolvable c2 k2]).sent.map
        (fun u => didKeyToVerkey u.recipientKey) = [k0, k1, k2] := by
  have hinit : ∀ k, countAdd k initialMediationState.sent =
      if k ∈ initialMediationState.announced then 1 else 0 := by
    intro k
    simp [initialMediationState, countAdd]
  have hscenario : (runMediation initialMediationState
      [.invitationKey k0, .didResolvable c1 k1, .didResolvable c2 k2]).sent =
      [⟨.add, verkeyToDidKey k0⟩, ⟨.add, verkeyToDidKey k1⟩,
        ⟨.add, verkeyToDidKey k2⟩] := by
    have h10 : ¬ k1 = k0 := fun h => h01 h.symm
    have h20 : ¬ k2 = k0 := fun h => h02 h.symm
    have h21 : ¬ k2 = k1 := fun h => h12 h.symm
    simp [runMediation, applyMediationOp, createInvitationKey,
      connectionDidResolvable, keyBecameActive, initialMediationState,
      h10, h20, h21]
  refine ⟨fun k => ?_, hscenario, by rw [hscenario]; rfl, by rw [hscenario]; simp⟩
  rw [runMediation_countAdd ops initialMediationState hinit k]
  by_cases hmem : k ∈ (runMediation initialMediationState ops).announced <;>
    simp [hmem]

/-- C2 witness: a concrete invitation key and two concrete connection keys
produce exactly the three decoded `add` updates. -/
theorem c2_witness :
    (∀ k, countAdd k (runMediation initialMediationState []).sent ≤ 1) ∧
    (runMediation initialMediationState
        [.invitationKey ['a'], .didResolvable 1 ['b'], .didResolvable 2 ['c']]).sent =
      [⟨.add, verkeyToDidKey ['a']⟩, ⟨.add, verkeyToDidKey ['b']⟩,
        ⟨.add, verkeyToDidKey ['c']⟩] ∧
    (runMediation initialMediationState
        [.invitationKey ['a'], .didResolvable 1 ['b'], .didResolvable 2 ['c']]).sent.length
      = 3 ∧
    (runMediation initialMediationState
        [.invitationKey ['a'], .didResolvable 1 ['b'], .didResolvable 2 ['c']]).sent.map
        (fun u => didKeyToVerkey u.recipientKey) = [['a'], ['b'], ['c']] :=
  c2_keylist_add_once_per_key [] ['a'] ['b'] ['c'] 1 2
    (by decide) (by decide) (by decide)

/-- Appending an entry to a trace preserves `AddBeforeRemove`, provided
that when the new entry is a `remove` the old trace already holds an `add`
for the same key. -/
theorem addBeforeRemove_snoc (t : List KeylistUpdateItem)
    (x : KeylistUpdateItem) (h : AddBeforeRemove t)
    (hx : x.action = KeylistUpdateAction.remove →
      ∃ y ∈ t, y.action = KeylistUpdateAction.add ∧
        y.recipientKey = x.recipientKey) :
    AddBeforeRemove (t ++ [x]) := by
  intro j hj hrem
  rcases Nat.lt_or_ge j t.length with hlt | hge
  · have hget : (t ++ [x]).get ⟨j, hj⟩ = t.get ⟨j, hlt⟩ := by
      simp [List.getElem_append, hlt]
    rw [hget] at hrem ⊢
    obtain ⟨y, hy, hact, hkey⟩ := h j hlt hrem
    refine ⟨y, ?_, hact, hkey⟩
    rw [List.take_append_of_le_length (Nat.le_of_lt hlt)]
    exact hy
  · have hjl : j = t.length := by
      have := hj
      simp only [List.length_append, List.length_singleton] at this
      omega
    subst hjl
    have hget : (t ++ [x]).get ⟨t.length, hj⟩ = x := by
      simp
    rw [hget] at hrem ⊢
    obtain ⟨y, hy, hact, hkey⟩ := hx hrem
    refine ⟨y, ?_, hact, hkey⟩
    rw [List.take_append_of_le_length (Nat.le_refl _)]
    simpa using hy

/-- `keyBecameActive` (with connections possibly extended first, as in
`connectionDidResolvable`) preserves the three-part mediation safety
invariant: the trace satisfies `AddBeforeRemove`, every announced key has
an `add` entry in the trace, and — with an active mediator — every live
connection's key is announced. -/
theorem keyBecameActive_invariant (s : MediationState) (k' : Verkey)
    (newConns : List (Nat × Verkey))
    (hnew : ∀ p ∈ newConns, p.2 = k')
    (h1 : AddBeforeRemove s.sent)
    (h2 : s.mediatorActive = true → ∀ k ∈ s.announced,
      (⟨KeylistUpdateAction.add, verkeyToDidKey k⟩ : KeylistUpdateItem) ∈ s.sent)
    (h3 : s.mediatorActive = true → ∀ p ∈ s.connections, p.2 ∈ s.announced) :
    AddBeforeRemove
      (keyBecameActive { s with connections := s.connections ++ newConns } k').sent ∧
    ((keyBecameActive { s with connections := s.connections ++ newConns } k').mediatorActive = true →
      ∀ k ∈ (keyBecameActive { s with connections := s.connections ++ newConns } k').announced,
        (⟨KeylistUpdateAction.add, verkeyToDidKey k⟩ : KeylistUpdateItem) ∈
          (keyBecameActive { s with connections := s.connections ++ newConns } k').sent) ∧
    ((keyBecameActive { s with connections := s.connections ++ newConns } k').mediatorActive = true →
      ∀ p ∈ (keyBecameActive { s with connections := s.connections ++ newConns } k').connections,
        p.2 ∈ (keyBecameActive { s with connections := s.connections ++ newConns } k').announced) := by
  by_cases hc : s.mediatorActive = true ∧ k' ∉ s.announced
  · unfold keyBecameActive
    rw [if_pos (by simpa using hc)]
    refine ⟨addBeforeRemove_snoc s.sent _ h1 (by simp), ?_, ?_⟩
    · intro ha k hk
      rcases List.mem_cons.mp hk with h | h
      · subst h
        exact List.mem_append_right _ (List.mem_singleton.mpr rfl)
      · exact List.mem_append_left _ (h2 hc.1 k h)
    · intro ha p hp
      rcases List.mem_append.mp hp with h | h
      · exact List.mem_cons_of_mem _ (h3 hc.1 p h)
      · rw [hnew p h]
        exact List.mem_cons_self _ _
  · unfold keyBecameActive
    rw [if_neg (by simpa using hc)]
    refine ⟨h1, h2, ?_⟩
    intro ha p hp
    rcases List.mem_append.mp hp with h | h
    · exact h3 ha p h
    · rw [hnew p h]
      rcases Decidable.not_and_iff_or_not.mp hc with hcc | hcc
      · exact absurd ha hcc
      · exact Decidable.not_not.mp hcc

/-- `deleteById` preserves the three-part mediation safety invariant. -/
theorem deleteById_invariant (s : MediationState) (c : Nat)
    (h1 : AddBeforeRemove s.sent)
    (h2 : s.mediatorActive = true → ∀ k ∈ s.announced,
      (⟨KeylistUpdateAction.add, verkeyToDidKey k⟩ : KeylistUpdateItem) ∈ s.sent)
    (h3 : s.mediatorActive = true → ∀ p ∈ s.connections, p.2 ∈ s.announced) :
    AddBeforeRemove (deleteById s c).sent ∧
    ((deleteById s c).mediatorActive = true →
      ∀ k ∈ (deleteById s c).announced,
        (⟨KeylistUpdateAction.add, verkeyToDidKey k⟩ : KeylistUpdateItem) ∈
          (deleteById s c).sent) ∧
    ((deleteById s c).mediatorActive = true →
      ∀ p ∈ (deleteById s c).connections, p.2 ∈ (deleteById s c).announced) := by
  rcases hf : s.connections.find? (fun p => p.1 = c) with _ | ⟨c', k'⟩
  · simp only [deleteById, hf]
    exact ⟨h1, h2, h3⟩
  · by_cases ha : s.mediatorActive = true
    · simp only [deleteById, hf, ha, if_true]
      refine ⟨?_, ?_, ?_⟩
      · apply addBeforeRemove_snoc s.sent _ h1
        intro _
        have hmem : (c', k') ∈ s.connections := List.mem_of_find?_eq_some hf
        have hann : k' ∈ s.announced := h3 ha (c', k') hmem
        exact ⟨⟨KeylistUpdateAction.add, verkeyToDidKey k'⟩,
          h2 ha k' hann, rfl, rfl⟩
      · intro _ k hk
        exact List.mem_append_left _ (h2 ha k hk)
      · intro _ p hp
        exact h3 ha p (List.mem_of_mem_filter hp)
    · have hfalse : s.mediatorActive = false := by
        cases hm : s.mediatorActive
        · rfl
        · exact absurd hm ha
      refine ⟨?_, ?_, ?_⟩
      · simpa [deleteById, hf, hfalse] using h1
      · simp [deleteById, hf, hfalse]
      · simp [deleteById, hf, hfalse]

/-- The full invariant carried through every mediation operation. -/
theorem runMediation_invariant (ops : List MediationOp) :
    ∀ s, AddBeforeRemove s.sent →
      (s.mediatorActive = true → ∀ k ∈ s.announced,
        (⟨KeylistUpdateAction.add, verkeyToDidKey k⟩ : KeylistUpdateItem) ∈ s.sent) →
      (s.mediatorActive = true → ∀ p ∈ s.connections, p.2 ∈ s.announced) →
      AddBeforeRemove (runMediation s ops).sent := by
  induction ops with
  | nil => exact fun s h1 _ _ => h1
  | cons op rest ih =>
      intro s h1 h2 h3
      cases op with
      | invitationKey k' =>
          have hpres := keyBecameActive_invariant s k' [] (by simp) h1 h2 h3
          have heq : keyBecameActive { s with connections := s.connections ++ [] } k' =
              createInvitationKey s k' := by
            simp [createInvitationKey]
          rw [heq] at hpres
          exact ih _ hpres.1 hpres.2.1 hpres.2.2
      | didResolvable c k' =>
          have hpres := keyBecameActive_invariant s k' [(c, k')] (by simp) h1 h2 h3
          exact ih _ hpres.1 hpres.2.1 hpres.2.2
      | delete c =>
          have hpres := deleteById_invariant s c h1 h2 h3
          exact ih _ hpres.1 hpres.2.1 hpres.2.2

/-- C3: deleting a connection with an active mediator sends exactly one
keylist `remove` update, carrying the recipient key of the deleted
connection's DID document; in every reachable trace each `remove` for a
key is preceded by an `add` for that key; and deleting the two connections
of the multi-use scenario appends exactly one matching `remove` entry
each. -/
theorem c3_delete_sends_one_remove (k0 k1 k2 : Verkey)
    (h01 : k0 ≠ k1) (h02 : k0 ≠ k2) (h12 : k1 ≠ k2) :
    (∀ s connId c k,
      s.connections.find? (fun p => p.1 = connId) = some (c, k) →
      s.mediatorActive = true →
      (deleteById s connId).sent =
        s.sent ++ [⟨KeylistUpdateAction.remove, verkeyToDidKey k⟩]) ∧
    (∀ ops, AddBeforeRemove (runMediation initialMediationState ops).sent) ∧
    (runMediation initialMediationState
        [.invitationKey k0, .didResolvable 1 k1, .didResolvable 2 k2,
          .delete 2, .delete 1]).sent =
      [⟨.add, verkeyToDidKey k0⟩, ⟨.add, verkeyToDidKey k1⟩,
        ⟨.add, verkeyToDidKey k2⟩, ⟨.remove, verkeyToDidKey k2⟩,
        ⟨.remove, verkeyToDidKey k1⟩] := by
  refine ⟨?_, ?_, ?_⟩
  · intro s connId c k hfind hactive
    simp [deleteById, hfind, hactive]
  · intro ops
    apply runMediation_invariant ops initialMediationState
    · intro j hj
      simp [initialMediationState] at hj
    · intro _ k hk
      simp [initialMediationState] at hk
    · intro _ p hp
      simp [initialMediationState] at hp
  · have h10 : ¬ k1 = k0 := fun h => h01 h.symm
    have h20 : ¬ k2 = k0 := fun h => h02 h.symm
    have h21 : ¬ k2 = k1 := fun h => h12 h.symm
    simp [runMediation, applyMediationOp, createInvitationKey,
      connectionDidResolvable, keyBecameActive, deleteById,
      initialMediationState, h10, h20, h21, List.find?, List.filter]

/-- C3 witness: deleting the two concrete connections of the scenario
appends exactly one `remove` per deletion, in deletion order, each
matching the connection's key; and every remove in the concrete trace is
preceded by its add. -/
theorem c3_witness :
    ((deleteById ⟨true, [['b']], [(1, ['b'])],
        [⟨.add, verkeyToDidKey ['b']⟩]⟩ 1).sent =
      [⟨.add, verkeyToDidKey ['b']⟩] ++
        [⟨KeylistUpdateAction.remove, verkeyToDidKey ['b']⟩]) ∧
    AddBeforeRemove (runMediation initialMediationState
      [.invitationKey ['a'], .didResolvable 1 ['b']]).sent ∧
    (runMediation initialMediationState
        [.invitationKey ['a'], .didResolvable 1 ['b'], .didResolvable 2 ['c'],
          .delete 2, .delete 1]).sent =
      [⟨.add, verkeyToDidKey ['a']⟩, ⟨.add, verkeyToDidKey ['b']⟩,
        ⟨.add, verkeyToDidKey ['c']⟩, ⟨.remove, verkeyToDidKey ['c']⟩,
        ⟨.remove, verkeyToDidKey ['b']⟩] := by
  refine ⟨?_, ?_, ?_⟩
  · exact (c3_delete_sends_one_remove ['a'] ['b'] ['c'] (by decide) (by decide)
      (by decide)).1 _ 1 1 ['b'] (by decide) rfl
  · exact (c3_delete_sends_one_remove ['a'] ['b'] ['c'] (by decide) (by decide)
      (by decide)).2.1 [.invitationKey ['a'], .didResolvable 1 ['b']]
  · exact (c3_delete_sends_one_remove ['a'] ['b'] ['c'] (by decide) (by decide)
      (by decide)).2.2

/-- Regrouping three bytes into four sextets and back is lossless. -/
theorem b64Unsextets_b64Sextets : ∀ l : List Nat, (∀ b ∈ l, b < 256) →
    b64Unsextets (b64Sextets l) = some l
  | [] => fun _ => rfl
  | [b1] => fun h => by
      have hb1 : b1 < 256 := h b1 (by simp)
      simp only [b64Sextets, b64Unsextets, Option.some.injEq, List.cons.injEq,
        and_true]
      omega
  | [b1, b2] => fun h => by
      have hb1 : b1 < 256 := h b1 (by simp)
      have hb2 : b2 < 256 := h b2 (by simp)
      simp only [b64Sextets, b64Unsextets, Option.some.injEq, List.cons.injEq,
        and_true]
      constructor
      · omega
      · omega
  | b1 :: b2 :: b3 :: rest => fun h => by
      have hb1 : b1 < 256 := h b1 (by simp)
      have hb2 : b2 < 256 := h b2 (by simp)
      have hb3 : b3 < 256 := h b3 (by simp)
      have ih := b64Unsextets_b64Sextets rest (fun b hb => h b (by simp [hb]))
      simp only [b64Sextets, b64Unsextets, ih, Option.map_some']
      simp only [Option.some.injEq, List.cons.injEq, and_true]
      refine ⟨?_, ?_, ?_⟩
      · omega
      · omega
      · omega

/-- Every sextet produced from in-range bytes is below 64. -/
theorem b64Sextets_lt : ∀ l : List Nat, (∀ b ∈ l, b < 256) →
    ∀ x ∈ b64Sextets l, x < 64
  | [] => fun _ x hx => by simp [b64Sextets] at hx
  | [b1] => fun h x hx => by
      have hb1 : b1 < 256 := h b1 (by simp)
      simp [b64Sextets] at hx
      rcases hx with rfl | rfl
      · omega
      · omega
  | [b1, b2] => fun h x hx => by
      have hb1 : b1 < 256 := h b1 (by simp)
      have hb2 : b2 < 256 := h b2 (by simp)
      simp [b64Sextets] at hx
      rcases hx with rfl | rfl | rfl
      · omega
      · omega
      · omega
  | b1 :: b2 :: b3 :: rest => fun h x hx => by
      have hb1 : b1 < 256 := h b1 (by simp)
      have hb2 : b2 < 256 := h b2 (by simp)
      have hb3 : b3 < 256 := h b3 (by simp)
      have ih := b64Sextets_lt rest (fun b hb => h b (by simp [hb]))
      simp [b64Sextets] at hx
      rcases hx with rfl | rfl | rfl | rfl | hmem
      · omega
      · omega
      · omega
      · omega
      · exact ih x hmem

/-- Decoding the character of any 6-bit value recovers the value. -/
theorem b64CharDec_b64Char : ∀ n, n < 64 → b64CharDec (b64Char n) = some n := by
  decide

/-- Character-level encode/decode over a whole sextet list is lossless. -/
theorem mapM_b64CharDec (xs : List Nat) (h : ∀ x ∈ xs, x < 64) :
    (xs.map b64Char).mapM b64CharDec = some xs := by
  induction xs with
  | nil => rfl
  | cons x rest ih =>
      simp only [List.map_cons, List.mapM_cons,
        b64CharDec_b64Char x (h x (by simp)),
        ih (fun y hy => h y (by simp [hy])), Option.pure_def,
        Option.bind_some, Option.bind_eq_bind]
      rfl

/-- Base64url decoding inverts base64url encoding on byte sequences. -/
theorem decodeB64_encodeB64 (bytes : List Nat) (h : ∀ b ∈ bytes, b < 256) :
    decodeB64 (encodeB64 bytes) = some bytes := by
  unfold decodeB64 encodeB64
  rw [mapM_b64CharDec _ (b64Sextets_lt bytes h)]
  simp [b64Unsextets_b64Sextets bytes h]

/-- Splitting right at the marker returns an empty base and the tail. -/
theorem splitAtMarker_marker (l : List Char) :
    splitAtMarker (oobMarker ++ l) = some ([], l) := by
  simp [oobMarker, splitAtMarker, List.isPrefixOf]

/-- Splitting a list whose head is not `?` skips the head. -/
theorem splitAtMarker_cons_ne (d : Char) (cs : List Char) (hd : d ≠ qMark) :
    splitAtMarker (d :: cs) =
      match splitAtMarker cs with
      | some (pre, post) => some (d :: pre, post)
      | none => none := by
  have h1 : (('?' : Char) == d) = false :=
    beq_eq_false_iff_ne.mpr (Ne.symm hd)
  have hpref : oobMarker.isPrefixOf (d :: cs) = false := by
    simp [oobMarker, List.isPrefixOf, h1]
  simp [splitAtMarker, hpref]

/-- A URL formed from a `?`-free base and the marker splits back into the
base and the encoded tail. -/
theorem splitAtMarker_append (domain rest : List Char)
    (hdomain : qMark ∉ domain) :
    splitAtMarker (domain ++ (oobMarker ++ rest)) = some (domain, rest) := by
  induction domain with
  | nil => simpa using splitAtMarker_marker rest
  | cons d ds ih =>
      have hd : d ≠ qMark := fun h => hdomain (h ▸ List.mem_cons_self _ _)
      have hds : qMark ∉ ds := fun h => hdomain (List.mem_cons_of_mem _ h)
      rw [List.cons_append, splitAtMarker_cons_ne d _ hd, ih hds]

/-- C7: decoding an encoded invitation URL reproduces the invitation —
`fromUrl (toUrl inv domain) = some inv` for every invitation document (a
byte sequence) and every base URL free of the query character. -/
theorem c7_invitation_url_roundtrip (inv : OutOfBandInvitation)
    (domain : List Char) (hbytes : ∀ b ∈ inv.document, b < 256)
    (hdomain : qMark ∉ domain) :
    fromUrl (toUrl inv domain) = some inv := by
  unfold fromUrl toUrl
  rw [List.append_assoc, splitAtMarker_append domain _ hdomain]
  simp [decodeB64_encodeB64 inv.document hbytes]

/-- C7 witness: a concrete four-byte invitation document survives the
round trip through a concrete base URL. -/
theorem c7_witness :
    fromUrl (toUrl ⟨[1, 255, 0, 77]⟩ "https://example.com".toList) =
      some ⟨[1, 255, 0, 77]⟩ :=
  c7_invitation_url_roundtrip ⟨[1, 255, 0, 77]⟩ "https://example.com".toList
    (by decide) (by decide)

end Aries
